import Mathlib

/-!
Verification development for the flow Session Broker (Go sources under
`claude/claude.go`, `slackbot/handlers.go`, `slackbot/slackbot.go`).

The Go code is shallowly embedded: pure parts become Lean functions on
`String`/`List`; the stateful registry and session maps become explicit
association lists (a Go map holds at most one entry per key; the list
order stands in for the map's arbitrary iteration order); goroutine
side effects become explicit action traces.  Library calls with opaque
behaviour (`regexp`, `encoding/json` decoding) are parameters of the
embedding: the functions under scrutiny are proved for every behaviour
of those parameters.
-/

set_option maxRecDepth 4096

/-! ## String helpers (ASCII models of the `strings` package functions used) -/

/-- ASCII white space, the cases of Unicode `White_Space` that occur in the
inputs considered (model of the character class used by `strings.TrimSpace`). -/
def isSpaceCh (c : Char) : Bool :=
  c = ' ' || c = '\t' || c = '\n' || c = '\r'

/-- Model of `strings.TrimSpace` (ASCII fragment). -/
def trimStr (s : String) : String :=
  ⟨((s.toList.dropWhile isSpaceCh).reverse.dropWhile isSpaceCh).reverse⟩

/-- ASCII lowering, the fragment of `strings.ToLower` exercised here. -/
def asciiLower (s : String) : String :=
  ⟨s.toList.map Char.toLower⟩

/-- Does `hay` contain `needle` as a contiguous substring (model of
`strings.Contains`)? -/
def containsSubList (needle hay : List Char) : Bool :=
  match hay with
  | [] => needle.isEmpty
  | _ :: rest => needle.isPrefixOf hay || containsSubList needle rest

def containsSub (hay needle : String) : Bool :=
  containsSubList needle.toList hay.toList

/-- Remove the first occurrence of `pat` from `s`
(model of `strings.Replace(s, pat, "", 1)`). -/
def removeFirstList (pat : List Char) : List Char → List Char
  | [] => []
  | c :: rest =>
    if pat.isPrefixOf (c :: rest) then (c :: rest).drop pat.length
    else c :: removeFirstList pat rest

def removeFirst (s pat : String) : String :=
  if pat.toList.isEmpty then s else ⟨removeFirstList pat.toList s.toList⟩

/-! ## Association lists: the model of a Go `map`

A Go map holds at most one binding per key; assignment replaces,
`delete` removes.  The list order models one iteration order of the
(unordered) map. -/

def lookupKey {α : Type} (l : List (String × α)) (k : String) : Option α :=
  match l with
  | [] => none
  | p :: rest => if p.1 = k then some p.2 else lookupKey rest k

/-- Model of `delete(m, k)`. -/
def eraseKey {α : Type} (l : List (String × α)) (k : String) : List (String × α) :=
  l.filter (fun p => decide (p.1 ≠ k))

/-- Model of `m[k] = v` (the map is unordered, so the representation puts
the fresh binding in front after dropping any binding the assignment
replaces). -/
def insertKey {α : Type} (l : List (String × α)) (k : String) (v : α) :
    List (String × α) :=
  (k, v) :: eraseKey l k

/-- Number of bindings stored for key `k`. -/
def countKey {α : Type} (l : List (String × α)) (k : String) : Nat :=
  (l.filter (fun p => decide (p.1 = k))).length

/-! ## The line-JSON envelopes (`claude.Message`, `claude.Input`) -/

/-- `claude.Message`: one envelope read from the child's stdout.  The raw
JSON payload is kept as an opaque string. -/
structure Message where
  type : String
  subtype : String
  message : String
  sessionID : String
  parentID : String
  result : String
  isError : Bool
  deriving Repr, DecidableEq

structure InputMessageContent where
  type : String
  text : String
  deriving Repr, DecidableEq

structure InputMessage where
  role : String
  content : List InputMessageContent
  deriving Repr, DecidableEq

/-- `claude.Input`: one envelope written to the child's stdin. -/
structure Input where
  type : String
  message : InputMessage
  deriving Repr, DecidableEq

/-- The standard user envelope built by `Service.SendMessage` (and, with the
fixed greeting text, by `CreateSessionWithMultipleDirs`). -/
def mkUserInput (text : String) : Input :=
  { type := "user"
    message := { role := "user", content := [{ type := "text", text := text }] } }

/-! ## `Service.handleStdout`: the inbound framer

The loop reads stdout line by line, trims, skips blank lines, decodes with
`json.Unmarshal` (an opaque library call, here the parameter `decode`;
`decode t = none` models a line that is not a well-formed envelope), consumes
a `system`/`init` envelope while the process session id is still empty, and
forwards every other decoded envelope to the output channel. -/

def handleStdoutGo (decode : String → Option Message) :
    List String → String → List Message
  | [], _ => []
  | line :: rest, sid =>
    let t := trimStr line
    if t = "" then handleStdoutGo decode rest sid
    else
      match decode t with
      | none => handleStdoutGo decode rest sid
      | some msg =>
        if msg.type = "system" ∧ msg.subtype = "init" ∧ sid = "" then
          handleStdoutGo decode rest msg.sessionID
        else msg :: handleStdoutGo decode rest sid

/-- Whether the loop ever fires the `initComplete` signal (the
`system`/`init` branch), as a function of the same inputs. -/
def handleStdoutInitSignalled (decode : String → Option Message) :
    List String → String → Bool
  | [], _ => false
  | line :: rest, sid =>
    let t := trimStr line
    if t = "" then handleStdoutInitSignalled decode rest sid
    else
      match decode t with
      | none => handleStdoutInitSignalled decode rest sid
      | some msg =>
        if msg.type = "system" ∧ msg.subtype = "init" ∧ sid = "" then true
        else handleStdoutInitSignalled decode rest sid

/-- Spec-side description of the stream delivered to `ReceiveMessages`:
the in-order parse of the non-blank lines, minus the `system`/`init`
envelopes consumed while the session id is still unset. -/
def consumeInitEnvelopes : List Message → String → List Message
  | [], _ => []
  | m :: rest, sid =>
    if m.type = "system" ∧ m.subtype = "init" ∧ sid = "" then
      consumeInitEnvelopes rest m.sessionID
    else m :: consumeInitEnvelopes rest sid

/-- The in-order parse of stdout: group into lines, trim, drop blanks,
drop lines that do not decode. -/
def parsedEnvelopes (decode : String → Option Message) (lines : List String) :
    List Message :=
  ((lines.map trimStr).filter (fun t => t ≠ "")).filterMap decode

/-! ## `Service.monitorStderr`: stderr classification and the error envelope

A stderr line containing (case-insensitively) `error`, `failed` or
`timeout` is lifted into an error envelope whose raw JSON payload is
assembled with `fmt.Sprintf`, escaping embedded quotes only by the blind
replacement `strings.ReplaceAll(line, quote, backslash-quote)`. -/

/-- The critical-line test of `monitorStderr`. -/
def isCriticalLine (line : String) : Bool :=
  containsSub (asciiLower line) "error" ||
    containsSub (asciiLower line) "failed" ||
    containsSub (asciiLower line) "timeout"

/-- Faithful port of `Service.formatUserError`. -/
def formatUserError (stderrLine : String) : String :=
  let lowerLine := asciiLower stderrLine
  if containsSub lowerLine "syntaxerror" && containsSub lowerLine "json" then
    if containsSub stderrLine "\"asdf\"" || containsSub stderrLine "\x27asdf\x27" then
      "Invalid input format. Please provide a valid question or command instead of random text."
    else
      "Invalid input format. Please ensure your input is properly formatted text or valid JSON."
  else if containsSub lowerLine "parsing" && containsSub lowerLine "error" then
    "Unable to process your input. Please check the format and try again."
  else if containsSub lowerLine "timeout" then
    "Request timed out. Please try again or simplify your request."
  else if containsSub lowerLine "failed" then
    "Command failed to execute. Please check your input and try again."
  else
    "An error occurred while processing your request. Please try again."

/-- `strings.ReplaceAll(line, quote, backslash-quote)`: the single blind
replacement the source applies before interpolating stderr text. -/
def blindEscape (s : String) : String :=
  ⟨(s.toList.map (fun c => if c = '"' then ['\\', '"'] else [c])).flatten⟩

/-- The `fmt.Sprintf` JSON payload of the `process_error` envelope,
exactly as interpolated by `monitorStderr`. -/
def stderrErrorPayload (line ts : String) : String :=
  "\x7b\"error\": \"" ++ formatUserError line ++
    "\", \"source\": \"claude_process\", \"timestamp\": \"" ++ ts ++
    "\", \"details\": \"" ++ blindEscape line ++ "\"\x7d"

/-- The error envelope `monitorStderr` publishes for a critical line. -/
def stderrErrorMessage (sid line ts : String) : Message :=
  { type := "error", subtype := "process_error", message := stderrErrorPayload line ts
    sessionID := sid, parentID := "", result := "", isError := true }

/-! A small standalone JSON syntax checker (RFC 8259 grammar, lenient on
raw control characters inside strings), used to judge whether the payload
the source assembles is well-formed JSON. -/

def lbraceCh : Char := Char.ofNat 123

def rbraceCh : Char := Char.ofNat 125

def jsonSkipWs (cs : List Char) : List Char :=
  cs.dropWhile isSpaceCh

def isHexDigitCh (c : Char) : Bool :=
  c.isDigit || ('a' ≤ c && c ≤ 'f') || ('A' ≤ c && c ≤ 'F')

/-- Scan the remainder of a JSON string literal (the opening quote has been
consumed); `pending` counts hex digits still owed to a `\u` escape. -/
def jsonStringRest : Nat → List Char → Option (List Char)
  | _, [] => none
  | n + 1, c :: rest => if isHexDigitCh c then jsonStringRest n rest else none
  | 0, c :: rest =>
    if c = '"' then some rest
    else if c = '\\' then
      match rest with
      | [] => none
      | e :: rest2 =>
        if e = 'u' then jsonStringRest 4 rest2
        else if e = '"' || e = '\\' || e = '/' || e = 'b' || e = 'f' ||
            e = 'n' || e = 'r' || e = 't' then jsonStringRest 0 rest2
        else none
    else jsonStringRest 0 rest

/-- Scan a JSON number (lenient: integer part, optional fraction/exponent). -/
def jsonNumberRest (cs : List Char) : Option (List Char) :=
  let cs1 := match cs with
    | '-' :: rest => rest
    | _ => cs
  let intPart := cs1.takeWhile Char.isDigit
  if intPart.isEmpty then none
  else
    let cs2 := cs1.dropWhile Char.isDigit
    let cs3 := match cs2 with
      | '.' :: rest =>
        if (rest.takeWhile Char.isDigit).isEmpty then cs2
        else rest.dropWhile Char.isDigit
      | _ => cs2
    match cs3 with
    | 'e' :: rest | 'E' :: rest =>
      let rest2 := match rest with
        | '+' :: r => r
        | '-' :: r => r
        | _ => rest
      if (rest2.takeWhile Char.isDigit).isEmpty then some cs3
      else some (rest2.dropWhile Char.isDigit)
    | _ => some cs3

mutual

def jsonValueRest : Nat → List Char → Option (List Char)
  | 0, _ => none
  | f + 1, cs =>
    match jsonSkipWs cs with
    | [] => none
    | c :: rest =>
      if c = '"' then jsonStringRest 0 rest
      else if c = lbraceCh then
        match jsonSkipWs rest with
        | [] => none
        | d :: rest2 => if d = rbraceCh then some rest2 else jsonMembersRest f (d :: rest2)
      else if c = '[' then
        match jsonSkipWs rest with
        | [] => none
        | d :: rest2 => if d = ']' then some rest2 else jsonElementsRest f (d :: rest2)
      else if c = 't' then
        if ['r', 'u', 'e'].isPrefixOf rest then some (rest.drop 3) else none
      else if c = 'f' then
        if ['a', 'l', 's', 'e'].isPrefixOf rest then some (rest.drop 4) else none
      else if c = 'n' then
        if ['u', 'l', 'l'].isPrefixOf rest then some (rest.drop 3) else none
      else jsonNumberRest (c :: rest)

def jsonMembersRest : Nat → List Char → Option (List Char)
  | 0, _ => none
  | f + 1, cs =>
    match jsonSkipWs cs with
    | [] => none
    | c :: rest =>
      if c = '"' then
        match jsonStringRest 0 rest with
        | none => none
        | some afterKey =>
          match jsonSkipWs afterKey with
          | ':' :: afterColon =>
            match jsonValueRest f afterColon with
            | none => none
            | some afterVal =>
              match jsonSkipWs afterVal with
              | ',' :: more => jsonMembersRest f more
              | d :: more => if d = rbraceCh then some more else none
              | [] => none
          | _ => none
      else none

def jsonElementsRest : Nat → List Char → Option (List Char)
  | 0, _ => none
  | f + 1, cs =>
    match jsonValueRest f cs with
    | none => none
    | some afterVal =>
      match jsonSkipWs afterVal with
      | ',' :: more => jsonElementsRest f more
      | d :: more => if d = ']' then some more else none
      | [] => none

end
/-- A string is well-formed JSON when it scans as exactly one JSON value
followed only by white space. -/
def jsonWellFormed (s : String) : Bool :=
  match jsonValueRest (s.toList.length + 1) s.toList with
  | some rest => (jsonSkipWs rest).isEmpty
  | none => false

/-! ## `Service.SendMessage`

The source packages `text` into the standard user envelope and runs a
three-way `select` over: the buffered inbound queue (capacity 10), a
5-second timer, and the process context.  A Go `select` picks uniformly
among the *ready* cases, so the model returns the list of outcomes the
select can produce; the queue and cancellation state are taken as fixed
over the 5-second window. -/

/-- One possible outcome of `SendMessage`: the error returned (`none` on
success) together with the inbound queue afterwards. -/
def sendMessageResults (text : String) (queue : List Input) (cancelled : Bool) :
    List (Option String × List Input) :=
  let msg := mkUserInput text
  let canEnqueue := queue.length < 10
  (if canEnqueue then [(none, queue ++ [msg])] else []) ++
    (if cancelled then [(some "session cancelled", queue)] else []) ++
    (if ¬canEnqueue ∧ ¬cancelled then [(some "timeout sending message", queue)] else [])

/-! ## `CreateSessionWithMultipleDirs`, `createResumedProcessWithDirs`,
`StopSession`

The child-facing argument vectors are built verbatim from the source.
The creation flows are modelled as functions of an environment that says
which of the awaited events fires first (the `initComplete` receive, the
10-second timer, or context cancellation) and, for fresh creation,
whether the synthetic first message is enqueued within 5 seconds.  Each
flow returns the result, the updated registry, and the trace of teardown
and channel actions it performed. -/

/-- The argument vector of a fresh session
(`CreateSessionWithMultipleDirs`): empty directory entries are
suppressed. -/
def createArgs (tools : List String) (dirs : List String) : List String :=
  ["--print", "--input-format", "stream-json", "--output-format", "stream-json",
    "--verbose", "--allowedTools", String.intercalate "," tools] ++
    ((dirs.filter (fun d => d ≠ "")).map (fun d => ["--add-dir", d])).flatten

/-- The argument vector of a resumed session
(`createResumedProcessWithDirs`): the base flags, then the resume flag
carrying the prior session id, then the directory flags. -/
def resumeArgs (tools : List String) (sessionID : String) (dirs : List String) :
    List String :=
  ["--print", "--input-format", "stream-json", "--output-format", "stream-json",
    "--verbose", "--allowedTools", String.intercalate "," tools,
    "--resume", sessionID] ++
    ((dirs.filter (fun d => d ≠ "")).map (fun d => ["--add-dir", d])).flatten

/-- The live process record kept in the Session Service registry. -/
structure Proc where
  sessionID : String
  correlationID : String
  deriving Repr, DecidableEq

/-- The Session Service registry (`Service.sessions`). -/
def Registry := List (String × Proc)

/-- Observable actions of the creation/stop paths. -/
inductive SvcAction where
  | enqueueInput (i : Input)
  | cancelCtx
  | closeDebugFiles
  | closeChan (name : String)
  | closePipe (name : String)
  | waitChild
  | logWarn (action : String)
  deriving Repr, DecidableEq

/-- Which awaited event fires first while the creation flow blocks on
`initComplete` / timer / context. -/
inductive InitWait where
  | received (sid : String)
  | timedOut
  | ctxDone
  deriving Repr, DecidableEq

/-- The synthetic first user message of `CreateSessionWithMultipleDirs`. -/
def initialMessage : Input :=
  mkUserInput "Hello, Claude! Initializing session."

/-- `CreateSessionWithMultipleDirs` from the point where the child is
started: enqueue the synthetic first message (or fail after 5 s), wait for
init (or fail after 10 s / on cancellation), then register the process
under the Agent-assigned session id.  `corrID` is the locally generated
correlation id. -/
def createSessionFlow (sendOk : Bool) (wait : InitWait) (corrID : String)
    (reg : Registry) : Except String Proc × Registry × List SvcAction :=
  if sendOk then
    match wait with
    | .received sid =>
      let p : Proc := ⟨sid, corrID⟩
      (.ok p, insertKey reg sid p, [.enqueueInput initialMessage])
    | .timedOut =>
      (.error "timeout waiting for Claude initialization", reg,
        [.enqueueInput initialMessage, .cancelCtx, .closeDebugFiles])
    | .ctxDone =>
      (.error "context cancelled during initialization", reg,
        [.enqueueInput initialMessage, .closeDebugFiles])
  else
    (.error "timeout sending initial message", reg, [.cancelCtx, .closeDebugFiles])

/-- `createResumedProcessWithDirs`: no synthetic first message is sent;
the process keeps the prior session id and is registered under it. -/
def createResumedFlow (sessionID : String) (wait : InitWait) (corrID : String)
    (reg : Registry) : Except String Proc × Registry × List SvcAction :=
  match wait with
  | .received _ =>
    let p : Proc := ⟨sessionID, corrID⟩
    (.ok p, insertKey reg sessionID p, [])
  | .timedOut =>
    (.error "timeout waiting for resumed Claude session initialization", reg,
      [.cancelCtx, .closeDebugFiles])
  | .ctxDone =>
    (.error "context cancelled during resumed session initialization", reg,
      [.closeDebugFiles])

/-- The `initComplete` receive in the resume flow unblocks in exactly two
cases: the `handleStdout` init branch sent the signal, or `handleStdout`
exited (stdout EOF) and its deferred `close(initComplete)` ran. -/
def initCompleteFires (signalled handlerExited : Bool) : Bool :=
  signalled || handlerExited

/-- The wait outcome of the resume flow under a live, uncancelled child:
`initComplete` fires (success) or the 10-second timer does. -/
def resumeWaitOutcome (fires : Bool) (sid : String) : InitWait :=
  if fires then .received sid else .timedOut

/-- `Service.StopSession`: remove the entry under the write lock; when an
entry was present, close the debug files, cancel the context, close the
input and error channels, close the three pipes and wait for the child;
otherwise only log a warning. -/
def stopSession (reg : Registry) (sessionID : String) : Registry × List SvcAction :=
  match lookupKey reg sessionID with
  | some _ =>
    (eraseKey reg sessionID,
      [.closeDebugFiles, .cancelCtx, .closeChan "input", .closeChan "error",
        .closePipe "stdin", .closePipe "stdout", .closePipe "stderr", .waitChild])
  | none => (reg, [.logWarn "session_not_found_for_stop"])

/-! ## Channel whitelist (`compileWhitelistPatterns`, `isChannelAllowed`)

Go's `regexp` library is opaque here: `compile` stands for
`regexp.Compile` (`none` for an invalid expression) and a compiled
pattern is its `MatchString` function. -/

/-- One step of the compilation loop: append the compiled pattern, or
abort with the first compile error. -/
def compileStep (compile : String → Option (String → Bool))
    (acc : Except String (List (String → Bool))) (pattern : String) :
    Except String (List (String → Bool)) :=
  match acc with
  | .error e => .error e
  | .ok rs =>
    match compile pattern with
    | none => .error ("invalid regex pattern " ++ pattern)
    | some r => .ok (rs ++ [r])

/-- `compileWhitelistPatterns`: an empty configured list leaves the
compiled slice nil; otherwise each pattern is compiled in order and the
first invalid one aborts construction. -/
def compileWhitelistPatterns (compile : String → Option (String → Bool))
    (patterns : List String) : Except String (List (String → Bool)) :=
  if patterns.isEmpty then .ok []
  else patterns.foldl (compileStep compile) (.ok [])

/-- `isChannelAllowed`: an empty compiled slice allows everything,
otherwise the channel must match some compiled pattern. -/
def isChannelAllowed (regexes : List (String → Bool)) (channelID : String) : Bool :=
  if regexes.isEmpty then true
  else regexes.any (fun r => r channelID)

/-! ## Thread Binder (`SlackBot.sessions`, `setSession`) -/

/-- The fields of `SlackClaudeSession` that drive the binder. -/
structure SlackSession where
  sessionID : String
  active : Bool
  lastActivity : Nat
  deriving Repr, DecidableEq

/-- The scan inside `setSession`: the Go loop keeps, in `(oldestTS,
oldestTime)`, the not-active entry with the earliest `LastActivity` seen
so far, using the empty string as the not-yet-found sentinel. -/
def scanOldestInactive : List (String × SlackSession) → String × Nat → String × Nat
  | [], acc => acc
  | p :: rest, acc =>
    scanOldestInactive rest
      (if p.2.active = false ∧ (acc.1 = "" ∨ p.2.lastActivity < acc.2)
        then (p.1, p.2.lastActivity) else acc)

/-- `SlackBot.setSession`: when the index already holds `MaxSessions`
entries, delete the inactive binding with the oldest activity (if the
scan found one), then store the new binding. -/
def setSession (maxSessions : Nat) (sessions : List (String × SlackSession))
    (threadTS : String) (s : SlackSession) : List (String × SlackSession) :=
  let sessions1 :=
    if sessions.length ≥ maxSessions then
      let o := scanOldestInactive sessions ("", 0)
      if o.1 ≠ "" then eraseKey sessions o.1 else sessions
    else sessions
  insertKey sessions1 threadTS s

/-! ## Event dispatch (`handleAppMentionEvent`)

The handler's observable effects, in order.  `handleAppMentionEvent`
never consults the channel whitelist: the model carries the compiled
whitelist in the bot state only so that the theorems can exhibit this. -/

structure SlackBotState where
  whitelistRegexes : List (String → Bool)
  sessions : List (String × SlackSession)

structure AppMentionEvent where
  channel : String
  user : String
  text : String
  threadTimeStamp : String
  deriving Repr, DecidableEq

inductive BotEffect where
  | postMessage (channel threadTS text : String)
  | createSession (user channel : String)
  | streamPrompt (text : String)
  deriving Repr, DecidableEq

/-- The mention-token stripping at the top of `handleAppMentionEvent`:
`strings.SplitN(text, ">", 2)` drops everything through the first `>`
when the text starts with `<@` and a `>` is present. -/
def stripMention (text : String) : String :=
  let t := trimStr text
  if ("<@".toList).isPrefixOf t.toList then
    if t.toList.contains '>' then
      trimStr ⟨(t.toList.dropWhile (fun c => c ≠ '>')).drop 1⟩
    else t
  else t

/-- `handleAppMentionEvent`, happy path of the chat client: post the
hint when the stripped text is empty, otherwise open a thread with the
acknowledgement, create a Claude session bound to it and stream the
prompt.  No whitelist check appears anywhere on this path. -/
def handleAppMentionEvent (_b : SlackBotState) (ev : AppMentionEvent) :
    List BotEffect :=
  let text := stripMention ev.text
  if text = "" then
    [.postMessage ev.channel ev.threadTimeStamp
      "Hi! Use /flow <your prompt> to start a conversation with Claude."]
  else
    [.postMessage ev.channel "" "Starting Claude session...",
      .createSession ev.user ev.channel,
      .streamPrompt text]

/-! ## `parseFlowCommand`

The two regular expressions of the source are specific enough to admit a
direct model: both recognise a fixed literal prefix followed by
`[\w\-\.]+` `/` `[\w\-\.]+` (with an optional `.git` suffix that the
character class already swallows), and `FindString` returns the
leftmost match. -/

/-- The character class `[\w\-\.]` (Go `\w` is `[0-9A-Za-z_]`). -/
def isRepoCh (c : Char) : Bool :=
  c.isAlphanum || c = '_' || c = '-' || c = '.'

/-- Try to match `<prefix>[\w\-\.]+/[\w\-\.]+` at the head of `cs`,
returning the matched characters. -/
def matchRepoAt (pfx : List Char) (cs : List Char) : Option (List Char) :=
  if pfx.isPrefixOf cs then
    let rest := cs.drop pfx.length
    let seg1 := rest.takeWhile isRepoCh
    if seg1.isEmpty then none
    else
      match rest.drop seg1.length with
      | '/' :: rest2 =>
        let seg2 := rest2.takeWhile isRepoCh
        if seg2.isEmpty then none
        else some (pfx ++ seg1 ++ '/' :: seg2)
      | _ => none
  else none

/-- Leftmost match of one of the alternative prefixes (at a given start
position at most one alternative can apply, since they begin with
different characters). -/
def findRepoFrom (pfxs : List (List Char)) : List Char → Option (List Char)
  | [] => none
  | c :: rest =>
    match pfxs.firstM (fun pfx => matchRepoAt pfx (c :: rest)) with
    | some m => some m
    | none => findRepoFrom pfxs rest

/-- `FindString` of `https://github\.com/[\w\-\.]+/[\w\-\.]+(?:\.git)?`. -/
def findGithubURL (content : String) : Option String :=
  (findRepoFrom ["https://github.com/".toList] content.toList).map List.asString

/-- `FindString` of
`(?:git@github\.com:|https://github\.com/)[\w\-\.]+/[\w\-\.]+(?:\.git)?`. -/
def findGitURL (content : String) : Option String :=
  (findRepoFrom ["git@github.com:".toList, "https://github.com/".toList]
    content.toList).map List.asString

def defaultRepoPrompt : String :=
  "Help me understand and improve this codebase"

/-- `parseFlowCommand`: try the https pattern, then the wider git
pattern; on a match, the prompt is the payload with the first occurrence
of the match removed and trimmed, defaulting when that leaves nothing. -/
def parseFlowCommand (content : String) : String × String :=
  match findGithubURL content with
  | some m =>
    let prompt := trimStr (removeFirst content m)
    (m, if prompt = "" then defaultRepoPrompt else prompt)
  | none =>
    match findGitURL content with
    | some m =>
      let prompt := trimStr (removeFirst content m)
      (m, if prompt = "" then defaultRepoPrompt else prompt)
    | none => ("", content)

/-- Spec-side description (amended): the repo url is the leftmost
https-github match when one exists, otherwise the leftmost git-or-https
match; the prompt is the payload with the first occurrence of that url
removed and whitespace-trimmed, replaced by the fixed default prompt
when the removal leaves only white space; with no recognised url the
whole payload is the prompt. -/
def parseFlowCommandSpec (content : String) : String × String :=
  match (findGithubURL content).orElse (fun _ => findGitURL content) with
  | none => ("", content)
  | some m =>
    (m,
      if trimStr (removeFirst content m) = "" then defaultRepoPrompt
      else trimStr (removeFirst content m))

/-! ## Probe values used by the concrete evaluations -/

/-- The init envelope of Agent session `S1`. -/
def initProbeMsg : Message :=
  { type := "system", subtype := "init", message := "", sessionID := "S1"
    parentID := "", result := "", isError := false }

/-- A decoder behaviour of `json.Unmarshal`: the line `INIT` is the
Agent's init envelope, everything else is malformed. -/
def initProbeDecode : String → Option Message :=
  fun s => if s = "INIT" then some initProbeMsg else none

/-- A compiled pattern matching nothing: the behaviour of the compiled
`^C.*DEV$` on channels such as `C123PROD`. -/
def rejectAllMatcher : String → Bool := fun _ => false

/-- A bot whose configured whitelist rejects `C123PROD`. -/
def c4Bot : SlackBotState := { whitelistRegexes := [rejectAllMatcher], sessions := [] }

/-- An app mention arriving on the non-whitelisted channel `C123PROD`. -/
def c4Event : AppMentionEvent :=
  { channel := "C123PROD", user := "U1", text := "<@B1> hello", threadTimeStamp := "" }

/-- A `regexp.Compile` behaviour: the pattern `[invalid` does not
compile, any other pattern compiles to substring matching. -/
def compileProbe : String → Option (String → Bool) :=
  fun p => if p = "[invalid" then none else some (fun ch => containsSub ch p)

/-- A critical stderr line (it contains `failed`) ending in a backslash. -/
def c7BadLine : String := "request failed \\"

/-! ## Theorems -/
theorem lookupKey_insertKey_self {α : Type} (l : List (String × α)) (k : String) (v : α) :
    lookupKey (insertKey l k v) k = some v := by
  simp [insertKey, lookupKey]

theorem countKey_eraseKey {α : Type} (l : List (String × α)) (k : String) :
    countKey (eraseKey l k) k = 0 := by
  induction l with
  | nil => rfl
  | cons p rest ih =>
    by_cases h : p.1 = k
    · rw [eraseKey, List.filter_cons, if_neg (by simp [h])]
      simpa [eraseKey] using ih
    · rw [eraseKey, List.filter_cons, if_pos (by simp [h])]
      rw [countKey, List.filter_cons, if_neg (by simp [h])]
      rw [countKey, eraseKey] at ih
      exact ih

theorem countKey_insertKey_self {α : Type} (l : List (String × α)) (k : String) (v : α) :
    countKey (insertKey l k v) k = 1 := by
  have h := countKey_eraseKey l k
  simpa [insertKey, countKey, List.filter_cons] using h

theorem lookupKey_eraseKey_self {α : Type} (l : List (String × α)) (k : String) :
    lookupKey (eraseKey l k) k = none := by
  induction l with
  | nil => rfl
  | cons p rest ih =>
    by_cases h : p.1 = k
    · simpa [eraseKey, List.filter_cons, h] using ih
    · simpa [eraseKey, List.filter_cons, h, lookupKey] using ih

theorem handleStdoutGo_eq_consume (decode : String → Option Message)
    (lines : List String) (sid : String) :
    handleStdoutGo decode lines sid
      = consumeInitEnvelopes (parsedEnvelopes decode lines) sid := by
  induction lines generalizing sid with
  | nil => rfl
  | cons line rest ih =>
    by_cases hblank : trimStr line = ""
    · simp only [handleStdoutGo, parsedEnvelopes, List.map_cons, List.filter_cons,
        hblank] at ih ⊢
      simpa [hblank] using ih sid
    · cases hdec : decode (trimStr line) with
      | none =>
        simp only [handleStdoutGo, parsedEnvelopes, List.map_cons, List.filter_cons,
          hblank] at ih ⊢
        simpa [hblank, hdec] using ih sid
      | some msg =>
        by_cases hinit : msg.type = "system" ∧ msg.subtype = "init" ∧ sid = ""
        · simp only [handleStdoutGo, parsedEnvelopes, List.map_cons, List.filter_cons,
            hblank] at ih ⊢
          simpa [hblank, hdec, hinit, consumeInitEnvelopes] using ih msg.sessionID
        · simp only [handleStdoutGo, parsedEnvelopes, List.map_cons, List.filter_cons,
            hblank] at ih ⊢
          simpa [hblank, hdec, hinit, consumeInitEnvelopes] using ih sid

theorem consumeInitEnvelopes_sublist (ms : List Message) (sid : String) :
    (consumeInitEnvelopes ms sid).Sublist ms := by
  induction ms generalizing sid with
  | nil => exact List.Sublist.refl _
  | cons m rest ih =>
    by_cases h : m.type = "system" ∧ m.subtype = "init" ∧ sid = ""
    · simpa [consumeInitEnvelopes, h] using (ih m.sessionID).cons m
    · simpa [consumeInitEnvelopes, h] using (ih sid).cons₂ m

/-! ## Association-list facts used by the invariant proofs -/

theorem lookupKey_eq_none_iff {α : Type} (l : List (String × α)) (k : String) :
    lookupKey l k = none ↔ ∀ p ∈ l, p.1 ≠ k := by
  induction l with
  | nil => simp [lookupKey]
  | cons p rest ih =>
    by_cases h : p.1 = k
    · simp [lookupKey, h]
    · simp [lookupKey, h, ih]

theorem eraseKey_of_lookup_none {α : Type} (l : List (String × α)) (k : String)
    (h : lookupKey l k = none) : eraseKey l k = l := by
  rw [lookupKey_eq_none_iff] at h
  induction l with
  | nil => rfl
  | cons p rest ih =>
    have hp := h p (List.mem_cons_self p rest)
    have hr := ih (fun q hq => h q (List.mem_cons_of_mem p hq))
    simp [eraseKey, List.filter_cons, hp] at hr ⊢
    exact hr

theorem mem_eraseKey_of_mem {α : Type} {l : List (String × α)} {k : String}
    {p : String × α} (hp : p ∈ l) (hne : p.1 ≠ k) : p ∈ eraseKey l k := by
  exact List.mem_filter.2 ⟨hp, by simpa using hne⟩

theorem keyNodup_unique {α : Type} {l : List (String × α)}
    (hnd : (l.map Prod.fst).Nodup) {k : String} {a b : α}
    (ha : (k, a) ∈ l) (hb : (k, b) ∈ l) : a = b := by
  induction l with
  | nil => cases ha
  | cons q rest ih =>
    have hnd2 : q.1 ∉ rest.map Prod.fst ∧ (rest.map Prod.fst).Nodup := by
      simpa [List.nodup_cons] using hnd
    rcases List.mem_cons.1 ha with ha1 | ha2 <;>
      rcases List.mem_cons.1 hb with hb1 | hb2
    · exact congrArg Prod.snd (ha1.trans hb1.symm)
    · exfalso
      have hmem : k ∈ rest.map Prod.fst := List.mem_map.2 ⟨(k, b), hb2, rfl⟩
      have hq1 : q.1 = k := by rw [← ha1]
      exact hnd2.1 (by rw [hq1]; exact hmem)
    · exfalso
      have hmem : k ∈ rest.map Prod.fst := List.mem_map.2 ⟨(k, a), ha2, rfl⟩
      have hq1 : q.1 = k := by rw [← hb1]
      exact hnd2.1 (by rw [hq1]; exact hmem)
    · exact ih hnd2.2 ha2 hb2

/-! ## Properties of the `setSession` eviction scan -/

theorem scanOldestInactive_all_active (l : List (String × SlackSession))
    (acc : String × Nat) (h : ∀ p ∈ l, p.2.active = true) :
    scanOldestInactive l acc = acc := by
  induction l generalizing acc with
  | nil => rfl
  | cons p rest ih =>
    have hp := h p (List.mem_cons_self p rest)
    simp [scanOldestInactive, hp]
    exact ih acc (fun q hq => h q (List.mem_cons_of_mem p hq))

theorem scanOldestInactive_ne_empty (l : List (String × SlackSession))
    (acc : String × Nat) (hk : ∀ p ∈ l, p.1 ≠ "") (ha : acc.1 ≠ "") :
    (scanOldestInactive l acc).1 ≠ "" := by
  induction l generalizing acc with
  | nil => exact ha
  | cons p rest ih =>
    rw [scanOldestInactive]
    by_cases hcond : p.2.active = false ∧ (acc.1 = "" ∨ p.2.lastActivity < acc.2)
    · simp only [if_pos hcond]
      exact ih _ (fun q hq => hk q (List.mem_cons_of_mem p hq))
        (hk p (List.mem_cons_self p rest))
    · simp only [if_neg hcond]
      exact ih _ (fun q hq => hk q (List.mem_cons_of_mem p hq)) ha

theorem scanOldestInactive_inv (l : List (String × SlackSession))
    (acc : String × Nat) (hk : ∀ p ∈ l, p.1 ≠ "") (ha : acc.1 ≠ "") :
    (scanOldestInactive l acc = acc ∨
      ∃ se, ((scanOldestInactive l acc).1, se) ∈ l ∧ se.active = false ∧
        se.lastActivity = (scanOldestInactive l acc).2) ∧
    (scanOldestInactive l acc).2 ≤ acc.2 ∧
    (∀ p ∈ l, p.2.active = false →
      (scanOldestInactive l acc).2 ≤ p.2.lastActivity) := by
  induction l generalizing acc with
  | nil => exact ⟨Or.inl rfl, Nat.le_refl _, by intro p hp; cases hp⟩
  | cons p rest ih =>
    rw [scanOldestInactive]
    by_cases hcond : p.2.active = false ∧ (acc.1 = "" ∨ p.2.lastActivity < acc.2)
    · simp only [if_pos hcond]
      have hp1 : p.1 ≠ "" := hk p (List.mem_cons_self p rest)
      have hlt : p.2.lastActivity < acc.2 := by
        rcases hcond.2 with h1 | h2
        · exact absurd h1 ha
        · exact h2
      obtain ⟨hmem, hle, hmin⟩ :=
        ih (p.1, p.2.lastActivity) (fun q hq => hk q (List.mem_cons_of_mem p hq)) hp1
      refine ⟨?_, Nat.le_of_lt (Nat.lt_of_le_of_lt hle hlt), ?_⟩
      · rcases hmem with heq | ⟨se, hse, hact, hlast⟩
        · refine Or.inr ⟨p.2, ?_, hcond.1, ?_⟩
          · rw [heq]; exact List.mem_cons_self p rest
          · rw [heq]
        · exact Or.inr ⟨se, List.mem_cons_of_mem p hse, hact, hlast⟩
      · intro q hq hqact
        rcases List.mem_cons.1 hq with hq1 | hq2
        · rw [hq1]; exact hle
        · exact hmin q hq2 hqact
    · simp only [if_neg hcond]
      obtain ⟨hmem, hle, hmin⟩ :=
        ih acc (fun q hq => hk q (List.mem_cons_of_mem p hq)) ha
      refine ⟨?_, hle, ?_⟩
      · rcases hmem with heq | ⟨se, hse, hact, hlast⟩
        · exact Or.inl heq
        · exact Or.inr ⟨se, List.mem_cons_of_mem p hse, hact, hlast⟩
      · intro q hq hqact
        rcases List.mem_cons.1 hq with hq1 | hq2
        · subst hq1
          have hge : acc.2 ≤ q.2.lastActivity := by
            by_contra hlt
            exact hcond ⟨hqact, Or.inr (Nat.lt_of_not_le hlt)⟩
          exact Nat.le_trans hle hge
        · exact hmin q hq2 hqact

theorem scanOldestInactive_empty_all_active (l : List (String × SlackSession))
    (hk : ∀ p ∈ l, p.1 ≠ "") (h : (scanOldestInactive l ("", 0)).1 = "") :
    ∀ p ∈ l, p.2.active = true := by
  induction l with
  | nil => intro p hp; cases hp
  | cons p rest ih =>
    by_cases hact : p.2.active = false
    · exfalso
      have hcond : p.2.active = false ∧
          ((("" : String), 0).1 = "" ∨ p.2.lastActivity < (("" : String), 0).2) :=
        ⟨hact, Or.inl rfl⟩
      rw [scanOldestInactive, if_pos hcond] at h
      exact scanOldestInactive_ne_empty rest (p.1, p.2.lastActivity)
        (fun q hq => hk q (List.mem_cons_of_mem p hq))
        (hk p (List.mem_cons_self p rest)) h
    · intro q hq
      rcases List.mem_cons.1 hq with hq1 | hq2
      · subst hq1; exact eq_true_of_ne_false hact
      · have hcond : ¬(p.2.active = false ∧
            ((("" : String), 0).1 = "" ∨ p.2.lastActivity < (("" : String), 0).2)) :=
          fun hc => hact hc.1
        rw [scanOldestInactive, if_neg hcond] at h
        exact ih (fun r hr => hk r (List.mem_cons_of_mem p hr)) h q hq2

theorem scanOldestInactive_found (l : List (String × SlackSession))
    (hk : ∀ p ∈ l, p.1 ≠ "") (h : (scanOldestInactive l ("", 0)).1 ≠ "") :
    ∃ se, ((scanOldestInactive l ("", 0)).1, se) ∈ l ∧ se.active = false ∧
      se.lastActivity = (scanOldestInactive l ("", 0)).2 ∧
      ∀ p ∈ l, p.2.active = false →
        (scanOldestInactive l ("", 0)).2 ≤ p.2.lastActivity := by
  induction l with
  | nil => exact absurd rfl h
  | cons p rest ih =>
    by_cases hact : p.2.active = false
    · have hcond : p.2.active = false ∧
          ((("" : String), 0).1 = "" ∨ p.2.lastActivity < (("" : String), 0).2) :=
        ⟨hact, Or.inl rfl⟩
      rw [scanOldestInactive, if_pos hcond] at h ⊢
      have hp1 : p.1 ≠ "" := hk p (List.mem_cons_self p rest)
      obtain ⟨hmem, hle, hmin⟩ :=
        scanOldestInactive_inv rest (p.1, p.2.lastActivity)
          (fun q hq => hk q (List.mem_cons_of_mem p hq)) hp1
      rcases hmem with heq | ⟨se, hse, hsact, hslast⟩
      · refine ⟨p.2, ?_, hact, ?_, ?_⟩
        · rw [heq]; exact List.mem_cons_self p rest
        · rw [heq]
        · intro q hq hqact
          rcases List.mem_cons.1 hq with hq1 | hq2
          · subst hq1; rw [heq]
          · exact hmin q hq2 hqact
      · refine ⟨se, List.mem_cons_of_mem p hse, hsact, hslast, ?_⟩
        intro q hq hqact
        rcases List.mem_cons.1 hq with hq1 | hq2
        · subst hq1; exact hle
        · exact hmin q hq2 hqact
    · have hcond : ¬(p.2.active = false ∧
          ((("" : String), 0).1 = "" ∨ p.2.lastActivity < (("" : String), 0).2)) :=
        fun hc => hact hc.1
      rw [scanOldestInactive, if_neg hcond] at h ⊢
      obtain ⟨se, hse, hsact, hslast, hmin⟩ :=
        ih (fun q hq => hk q (List.mem_cons_of_mem p hq)) h
      refine ⟨se, List.mem_cons_of_mem p hse, hsact, hslast, ?_⟩
      intro q hq hqact
      rcases List.mem_cons.1 hq with hq1 | hq2
      · subst hq1; exact absurd hqact hact
      · exact hmin q hq2 hqact

/-- C6: for every `setSession` call on an index already holding
`max_sessions` or more bindings: when some stored binding is inactive,
an inactive binding with the oldest `last_activity` is deleted before
the new binding is stored; when every stored binding is active, nothing
is deleted, the new binding still enters the index, and the cap is
exceeded; no active binding is ever evicted.  (The hypotheses state the
binder's reachable-state invariants: thread ids are the non-empty Slack
thread timestamps and the map holds one binding per thread.) -/
theorem c6_thread_binder_soft_eviction
    (maxSessions : Nat) (sessions : List (String × SlackSession))
    (threadTS : String) (s : SlackSession)
    (hkeys : ∀ p ∈ sessions, p.1 ≠ "")
    (hnodup : (sessions.map Prod.fst).Nodup)
    (hfresh : lookupKey sessions threadTS = none)
    (hfull : sessions.length ≥ maxSessions) :
    lookupKey (setSession maxSessions sessions threadTS s) threadTS = some s ∧
    ((∃ p ∈ sessions, p.2.active = false) →
      ∃ k0 se, (k0, se) ∈ sessions ∧ se.active = false ∧
        (∀ p ∈ sessions, p.2.active = false → se.lastActivity ≤ p.2.lastActivity) ∧
        setSession maxSessions sessions threadTS s
          = insertKey (eraseKey sessions k0) threadTS s) ∧
    ((∀ p ∈ sessions, p.2.active = true) →
      setSession maxSessions sessions threadTS s = (threadTS, s) :: sessions ∧
      (setSession maxSessions sessions threadTS s).length = sessions.length + 1) ∧
    (∀ p ∈ sessions, p.2.active = true →
      p ∈ setSession maxSessions sessions threadTS s) := by
  have hne : ∀ p ∈ sessions, p.1 ≠ threadTS :=
    (lookupKey_eq_none_iff sessions threadTS).1 hfresh
  by_cases hfound : (scanOldestInactive sessions ("", 0)).1 = ""
  · have hall := scanOldestInactive_empty_all_active sessions hkeys hfound
    have hset : setSession maxSessions sessions threadTS s = (threadTS, s) :: sessions := by
      simp only [setSession, if_pos hfull]
      rw [if_neg (fun h => h hfound), insertKey,
        eraseKey_of_lookup_none sessions threadTS hfresh]
    refine ⟨?_, ?_, ?_, ?_⟩
    · rw [hset]; simp [lookupKey]
    · rintro ⟨p, hp, hpact⟩
      rw [hall p hp] at hpact
      cases hpact
    · intro _
      exact ⟨hset, by rw [hset]; simp⟩
    · intro p hp _
      rw [hset]
      exact List.mem_cons_of_mem _ hp
  · obtain ⟨se, hmem, hact, hlast, hmin⟩ := scanOldestInactive_found sessions hkeys hfound
    have hset : setSession maxSessions sessions threadTS s
        = insertKey (eraseKey sessions (scanOldestInactive sessions ("", 0)).1)
            threadTS s := by
      simp only [setSession, if_pos hfull]
      rw [if_pos hfound]
    refine ⟨?_, ?_, ?_, ?_⟩
    · rw [hset]; exact lookupKey_insertKey_self _ _ _
    · intro _
      exact ⟨(scanOldestInactive sessions ("", 0)).1, se, hmem, hact,
        fun p hp hpact => hlast ▸ hmin p hp hpact, hset⟩
    · intro hallact
      have := hallact _ hmem
      rw [hact] at this
      cases this
    · intro p hp hpact
      rw [hset]
      have hp1 : p.1 ≠ (scanOldestInactive sessions ("", 0)).1 := by
        intro heq
        have hpa : (p.1, p.2) ∈ sessions := by simpa using hp
        rw [heq] at hpa
        have hps : p.2 = se := keyNodup_unique hnodup hpa hmem
        rw [hps, hact] at hpact
        cases hpact
      exact List.mem_cons_of_mem _
        (mem_eraseKey_of_mem (mem_eraseKey_of_mem hp hp1) (hne p hp))

/-! ## Claim theorems -/

/-- C1: a successful `CreateSessionWithMultipleDirs` leaves exactly one
registry entry keyed by the Agent-assigned session id and mapping to the
created process, and after `StopSession` with that id returns, the
registry holds no entry for it. -/
theorem c1_registry_exactly_once
    (sendOk : Bool) (wait : InitWait) (corrID : String) (reg : Registry)
    (p : Proc) (reg2 : Registry) (acts : List SvcAction)
    (h : createSessionFlow sendOk wait corrID reg = (.ok p, reg2, acts)) :
    countKey reg2 p.sessionID = 1 ∧
    lookupKey reg2 p.sessionID = some p ∧
    lookupKey (stopSession reg2 p.sessionID).1 p.sessionID = none := by
  cases sendOk with
  | false => simp [createSessionFlow] at h
  | true =>
    cases wait with
    | timedOut => simp [createSessionFlow] at h
    | ctxDone => simp [createSessionFlow] at h
    | received sid =>
      simp only [createSessionFlow, if_true] at h
      rw [Prod.mk.injEq, Prod.mk.injEq] at h
      obtain ⟨h1, h2, -⟩ := h
      injection h1 with hp
      subst hp
      subst h2
      refine ⟨countKey_insertKey_self reg sid _, lookupKey_insertKey_self reg sid _, ?_⟩
      have hl : lookupKey (insertKey reg sid (Proc.mk sid corrID)) sid
          = some (Proc.mk sid corrID) := lookupKey_insertKey_self reg sid _
      show lookupKey (stopSession (insertKey reg sid (Proc.mk sid corrID)) sid).1 sid = none
      simp only [stopSession, hl]
      exact lookupKey_eraseKey_self _ sid

/-- Witness for C1 at a concrete creation: init received with id `S1`
on an empty registry. -/
theorem c1_registry_exactly_once_witness :
    createSessionFlow true (.received "S1") "corr1" []
      = (.ok ⟨"S1", "corr1"⟩, [("S1", ⟨"S1", "corr1"⟩)],
          [.enqueueInput initialMessage]) ∧
    (countKey [("S1", (⟨"S1", "corr1"⟩ : Proc))] "S1" = 1 ∧
      lookupKey [("S1", (⟨"S1", "corr1"⟩ : Proc))] "S1" = some ⟨"S1", "corr1"⟩ ∧
      lookupKey (stopSession [("S1", (⟨"S1", "corr1"⟩ : Proc))] "S1").1 "S1" = none) :=
  ⟨rfl, c1_registry_exactly_once true (.received "S1") "corr1" [] _ _ _ rfl⟩

/-- C2 (amended): the stream delivered by `ReceiveMessages` equals the
in-order parse of the trimmed, non-blank stdout lines with undecodable
lines dropped, minus the `system`/`init` envelopes consumed while the
session id is unset; in particular it is a prefix-preserving subsequence
of that parse, and a well-formed envelope following a malformed line is
still delivered. -/
theorem c2_receive_stream_ordering (decode : String → Option Message)
    (lines : List String) (sid : String) :
    handleStdoutGo decode lines sid
      = consumeInitEnvelopes (parsedEnvelopes decode lines) sid ∧
    (handleStdoutGo decode lines sid).Sublist (parsedEnvelopes decode lines) := by
  refine ⟨handleStdoutGo_eq_consume decode lines sid, ?_⟩
  rw [handleStdoutGo_eq_consume decode lines sid]
  exact consumeInitEnvelopes_sublist _ sid

/-- Counterexample to C2 as stated: the init line decodes as a JSON
envelope but is consumed for initialization, not delivered, so the
delivered stream is not the full in-order parse of the non-blank lines. -/
theorem c2_receive_stream_counterexample :
    handleStdoutGo initProbeDecode ["INIT"] "" = [] ∧
    parsedEnvelopes initProbeDecode ["INIT"] = [initProbeMsg] ∧
    handleStdoutGo initProbeDecode ["INIT"] ""
      ≠ parsedEnvelopes initProbeDecode ["INIT"] := by
  refine ⟨by decide, by decide, by decide⟩

/-- C3: the resume path passes the resume flag and sends no synthetic
first message, but its init wait can never be completed by the init
envelope: the `handleStdout` init branch requires an empty stored
session id, and a resumed process starts with the prior id `S1`.  With
the child alive past the ceiling, `ResumeSession` therefore times out
and tears down even though the Agent emitted
`(type system, subtype init)` — the divergence from the claim. -/
theorem c3_resume_init_timeout_bug :
    ((resumeArgs ["Read", "Write", "Bash"] "S1" ["d1"]).contains "--resume" = true ∧
      resumeArgs ["Read", "Write", "Bash"] "S1" ["d1"]
        = ["--print", "--input-format", "stream-json", "--output-format",
            "stream-json", "--verbose", "--allowedTools", "Read,Write,Bash",
            "--resume", "S1", "--add-dir", "d1"]) ∧
    (createResumedFlow "S1" (.received "S1") "corr2" []).2.2 = [] ∧
    (createSessionFlow true (.received "S1") "corr1" []).2.2
      = [.enqueueInput initialMessage] ∧
    handleStdoutInitSignalled initProbeDecode ["INIT"] "S1" = false ∧
    handleStdoutInitSignalled initProbeDecode ["INIT"] "" = true ∧
    createResumedFlow "S1"
        (resumeWaitOutcome
          (initCompleteFires
            (handleStdoutInitSignalled initProbeDecode ["INIT"] "S1") false) "S1")
        "corr2" []
      = (.error "timeout waiting for resumed Claude session initialization",
          [], [.cancelCtx, .closeDebugFiles]) := by
  refine ⟨⟨by decide, by decide⟩, rfl, rfl, by decide, by decide, rfl⟩

/-- C4: the dispatcher does not gate inbound events on the channel
whitelist.  With a configured whitelist under which `C123PROD` is not
allowed, `handleAppMentionEvent` still posts the acknowledgement,
creates an Agent session and streams the prompt — the claim requires
the event to be dropped entirely. -/
theorem c4_whitelist_not_enforced :
    isChannelAllowed c4Bot.whitelistRegexes "C123PROD" = false ∧
    handleAppMentionEvent c4Bot c4Event
      = [.postMessage "C123PROD" "" "Starting Claude session...",
          .createSession "U1" "C123PROD",
          .streamPrompt "hello"] ∧
    BotEffect.createSession "U1" "C123PROD" ∈ handleAppMentionEvent c4Bot c4Event := by
  refine ⟨rfl, by decide, by decide⟩

/-- C5 (amended): `SendMessage` packages the text into the standard user
envelope; with queue space and no cancellation it enqueues and succeeds;
with a full queue it returns the timeout error after 5 seconds, or the
cancellation error when the cancellation has fired; when the cancellation
has fired *and* the queue has space, the `select` may take either branch,
so success is also a possible outcome. -/
theorem c5_send_message (text : String) (queue : List Input) (cancelled : Bool) :
    (cancelled = false → queue.length < 10 →
      sendMessageResults text queue cancelled = [(none, queue ++ [mkUserInput text])]) ∧
    (cancelled = false → ¬queue.length < 10 →
      sendMessageResults text queue cancelled = [(some "timeout sending message", queue)]) ∧
    (cancelled = true → ¬queue.length < 10 →
      sendMessageResults text queue cancelled = [(some "session cancelled", queue)]) ∧
    (cancelled = true →
      (some "session cancelled", queue) ∈ sendMessageResults text queue cancelled) ∧
    (cancelled = true → queue.length < 10 →
      sendMessageResults text queue cancelled
        = [(none, queue ++ [mkUserInput text]), (some "session cancelled", queue)]) := by
  refine ⟨?_, ?_, ?_, ?_, ?_⟩ <;> intro hc
  · intro hq; subst hc; simp [sendMessageResults, hq]
  · intro hq; subst hc; simp [sendMessageResults, hq]
  · intro hq; subst hc; simp [sendMessageResults, hq]
  · subst hc
    by_cases hq : queue.length < 10 <;> simp [sendMessageResults, hq]
  · intro hq; subst hc; simp [sendMessageResults, hq]

/-- Witness for C5 at concrete inputs: an empty queue without
cancellation enqueues the standard user envelope. -/
theorem c5_send_message_witness :
    (false : Bool) = false ∧ ([] : List Input).length < 10 ∧
    sendMessageResults "hi" [] false = [(none, [mkUserInput "hi"])] :=
  ⟨rfl, by decide, (c5_send_message "hi" [] false).1 rfl (by decide)⟩

/-- Counterexample to C5 as stated: with the cancellation already fired
but the queue not full, the Go `select` has two ready cases and may
enqueue and return success instead of the cancellation error. -/
theorem c5_send_message_counterexample :
    (none, [mkUserInput "hi"]) ∈ sendMessageResults "hi" [] true ∧
    (none : Option String) ≠ some "session cancelled" := by
  refine ⟨by decide, by decide⟩

/-- Witness for C6 at a concrete index: capacity 2, one active and one
inactive binding, a fresh thread id. -/
theorem c6_thread_binder_soft_eviction_witness :
    ((∀ p ∈ [("t1", (⟨"s1", true, 5⟩ : SlackSession)),
        ("t2", (⟨"s2", false, 3⟩ : SlackSession))], p.1 ≠ "") ∧
      ((([("t1", (⟨"s1", true, 5⟩ : SlackSession)),
        ("t2", (⟨"s2", false, 3⟩ : SlackSession))]).map Prod.fst).Nodup) ∧
      lookupKey [("t1", (⟨"s1", true, 5⟩ : SlackSession)),
        ("t2", (⟨"s2", false, 3⟩ : SlackSession))] "t3" = none ∧
      ([("t1", (⟨"s1", true, 5⟩ : SlackSession)),
        ("t2", (⟨"s2", false, 3⟩ : SlackSession))]).length ≥ 2) ∧
    lookupKey (setSession 2 [("t1", (⟨"s1", true, 5⟩ : SlackSession)),
        ("t2", (⟨"s2", false, 3⟩ : SlackSession))] "t3" ⟨"s3", true, 9⟩) "t3"
      = some ⟨"s3", true, 9⟩ :=
  ⟨⟨by decide, by decide, by decide, by decide⟩,
    (c6_thread_binder_soft_eviction 2
      [("t1", ⟨"s1", true, 5⟩), ("t2", ⟨"s2", false, 3⟩)] "t3" ⟨"s3", true, 9⟩
      (by decide) (by decide) (by decide) (by decide)).1⟩

/-- C7: a stderr line containing `failed` is classified critical, but
the interpolated payload of the resulting `process_error` envelope is
not well-formed JSON when the line ends in a backslash: the blind
quote replacement leaves the backslash free to escape the payload's
closing quote.  A quote-and-backslash-free line, by contrast, yields a
well-formed payload. -/
theorem c7_stderr_payload_not_escaped :
    isCriticalLine c7BadLine = true ∧
    jsonWellFormed (stderrErrorPayload c7BadLine "2025-01-01T00:00:00Z") = false ∧
    jsonWellFormed (stderrErrorPayload "connection error" "2025-01-01T00:00:00Z")
      = true := by
  refine ⟨by decide, by decide, by decide⟩

theorem compileFold_error (compile : String → Option (String → Bool))
    (patterns : List String) (e : String) :
    patterns.foldl (compileStep compile) (.error e) = .error e := by
  induction patterns with
  | nil => rfl
  | cons p rest ih => simpa [compileStep] using ih

theorem compileFold_error_iff (compile : String → Option (String → Bool))
    (patterns : List String) (rs : List (String → Bool)) :
    (∃ e, patterns.foldl (compileStep compile) (.ok rs) = .error e) ↔
      ∃ p ∈ patterns, compile p = none := by
  induction patterns generalizing rs with
  | nil => simp
  | cons p rest ih =>
    cases hc : compile p with
    | none =>
      simp only [List.foldl_cons, compileStep, hc]
      rw [compileFold_error]
      simp [hc]
    | some r =>
      simp only [List.foldl_cons, compileStep, hc]
      rw [ih (rs ++ [r])]
      simp [hc]

theorem compileFold_ok_length (compile : String → Option (String → Bool))
    (patterns : List String) (rs regexes : List (String → Bool))
    (h : patterns.foldl (compileStep compile) (.ok rs) = .ok regexes) :
    regexes.length = rs.length + patterns.length := by
  induction patterns generalizing rs with
  | nil =>
    have : rs = regexes := by simpa using h
    simp [this]
  | cons p rest ih =>
    cases hc : compile p with
    | none =>
      rw [List.foldl_cons, compileStep, hc] at h
      rw [compileFold_error] at h
      cases h
    | some r =>
      rw [List.foldl_cons, compileStep, hc] at h
      have h2 := ih (rs ++ [r]) h
      simp [List.length_append] at h2 ⊢
      omega

/-- C8: whitelist construction fails exactly when some configured
pattern fails to compile; given a successful construction,
`isChannelAllowed` is true iff the configured list is empty or some
compiled pattern matches, and — being a pure function of the compiled
patterns and the channel id — repeated calls agree. -/
theorem c8_whitelist_correct (compile : String → Option (String → Bool))
    (patterns : List String) :
    ((∃ e, compileWhitelistPatterns compile patterns = .error e) ↔
      ∃ p ∈ patterns, compile p = none) ∧
    (∀ regexes, compileWhitelistPatterns compile patterns = .ok regexes →
      ∀ channelID,
        (isChannelAllowed regexes channelID = true ↔
          (patterns = [] ∨ ∃ r ∈ regexes, r channelID = true)) ∧
        isChannelAllowed regexes channelID = isChannelAllowed regexes channelID) := by
  by_cases hemp : patterns.isEmpty
  · have hnil : patterns = [] := List.isEmpty_iff.1 hemp
    subst hnil
    constructor
    · simp [compileWhitelistPatterns]
    · intro regexes hok channelID
      have hre : regexes = [] := by
        simpa [compileWhitelistPatterns] using hok.symm
      subst hre
      exact ⟨by simp [isChannelAllowed], rfl⟩
  · have hunfold : compileWhitelistPatterns compile patterns
        = patterns.foldl (compileStep compile) (.ok []) := by
      simp [compileWhitelistPatterns, hemp]
    constructor
    · rw [hunfold]
      exact compileFold_error_iff compile patterns []
    · intro regexes hok channelID
      rw [hunfold] at hok
      have hlen : regexes.length = ([] : List (String → Bool)).length + patterns.length :=
        compileFold_ok_length compile patterns [] regexes hok
      have hrne : ¬regexes.isEmpty := by
        intro hre
        have h0 : regexes.length = 0 := by
          rw [List.isEmpty_iff.1 hre]; rfl
        rw [h0] at hlen
        have : patterns.length = 0 := by omega
        exact hemp (List.isEmpty_iff.2 (List.length_eq_zero.1 this))
      refine ⟨?_, rfl⟩
      have hpne : patterns ≠ [] := fun hp => hemp (List.isEmpty_iff.2 hp)
      constructor
      · intro hallow
        refine Or.inr ?_
        rw [isChannelAllowed, if_neg (by simpa using hrne)] at hallow
        simpa using List.any_eq_true.1 hallow
      · intro hor
        rcases hor with hp | ⟨r, hr, hrch⟩
        · exact absurd hp hpne
        · rw [isChannelAllowed, if_neg (by simpa using hrne)]
          exact List.any_eq_true.2 ⟨r, hr, hrch⟩

/-- Witness for C8 at a concrete compile behaviour and pattern list. -/
theorem c8_whitelist_correct_witness :
    compileWhitelistPatterns compileProbe ["flow"]
      = .ok [fun ch => containsSub ch "flow"] ∧
    (isChannelAllowed [fun ch => containsSub ch "flow"] "Cflow1" = true ↔
      (["flow"] = ([] : List String) ∨
        ∃ r ∈ [fun ch => containsSub ch "flow"], r "Cflow1" = true)) :=
  ⟨rfl, ((c8_whitelist_correct compileProbe ["flow"]).2
    [fun ch => containsSub ch "flow"] rfl "Cflow1").1⟩

/-- C9 (amended): the repo url is the leftmost https-github match when
one exists, otherwise the leftmost git-or-https match; the prompt is the
payload with the first occurrence of that url removed and
whitespace-trimmed, with the fixed default prompt substituted when the
removal leaves only white space; with no recognised url, the whole
payload is the prompt. -/
theorem c9_parse_flow_command (content : String) :
    parseFlowCommand content = parseFlowCommandSpec content := by
  cases h1 : findGithubURL content with
  | some m => simp [parseFlowCommand, parseFlowCommandSpec, h1, Option.orElse]
  | none =>
    cases h2 : findGitURL content with
    | some m => simp [parseFlowCommand, parseFlowCommandSpec, h1, h2, Option.orElse]
    | none => simp [parseFlowCommand, parseFlowCommandSpec, h1, h2, Option.orElse]

/-- Counterexample to C9 as stated: a payload that is exactly a
repository url leaves an empty remainder, and the code substitutes the
default prompt instead of returning the empty remainder. -/
theorem c9_parse_flow_command_counterexample :
    parseFlowCommand "https://github.com/user/repo"
      = ("https://github.com/user/repo", defaultRepoPrompt) ∧
    (parseFlowCommand "https://github.com/user/repo").2
      ≠ trimStr (removeFirst "https://github.com/user/repo"
          "https://github.com/user/repo") := by
  refine ⟨by decide, by decide⟩

/-- C10: `StopSession` with a session id absent from the registry only
logs: the registry is unchanged (so every other registered process is
untouched) and no cancellation, close, or wait action is performed. -/
theorem c10_stop_missing_session_noop (reg : Registry) (sessionID : String)
    (h : lookupKey reg sessionID = none) :
    stopSession reg sessionID = (reg, [.logWarn "session_not_found_for_stop"]) ∧
    (∀ k, lookupKey (stopSession reg sessionID).1 k = lookupKey reg k) ∧
    (∀ a ∈ (stopSession reg sessionID).2,
      a = SvcAction.logWarn "session_not_found_for_stop") := by
  have hstop : stopSession reg sessionID
      = (reg, [.logWarn "session_not_found_for_stop"]) := by
    simp [stopSession, h]
  refine ⟨hstop, ?_, ?_⟩
  · intro k; rw [hstop]
  · intro a ha
    rw [hstop] at ha
    simpa using ha

/-- Witness for C10 at a concrete registry that does not contain the
stopped id. -/
theorem c10_stop_missing_session_noop_witness :
    lookupKey [("S1", (⟨"S1", "corr1"⟩ : Proc))] "S2" = none ∧
    stopSession [("S1", (⟨"S1", "corr1"⟩ : Proc))] "S2"
      = ([("S1", ⟨"S1", "corr1"⟩)], [.logWarn "session_not_found_for_stop"]) :=
  ⟨by decide,
    (c10_stop_missing_session_noop [("S1", ⟨"S1", "corr1"⟩)] "S2" (by decide)).1⟩
